import Mathlib

/-!
Verification development for the `downpour` BitTorrent client.

The Rust sources under `src/` are shallowly embedded below:
* `src/bencode.rs`   — the bencode parser (`parse_bencode`, `parse_dictionary`,
  `parse_bytes`, `parse_integer`, `parse_info_dict_raw`);
* `src/downloader.rs` — the scheduler's receive loop (`Downloader::download`'s
  packet `match`), `flag_next_piece`, `request_next_block`, and the
  directory-torrent preallocation loop;
* `src/peer_list.rs` — the HTTP tracker response decoding in `fetch_peers_http`.

Bytes are modelled as `Nat` (the parsers only compare bytes against concrete
ASCII values and never overflow them).  Rust `Result`/panics are modelled by
the `Step` type: `Step.err` is an `Err(anyhow!(..))` return value, and
`Step.panicked` is a Rust panic (`todo!()` macros, `Vec` index out of bounds,
and debug-profile integer-overflow checks on subtraction).  `as` casts to
`u32`/`usize` never panic in Rust and all values appearing in the theorems
below are far below `2^32`, so those casts are modelled as the identity.
-/

namespace Downpour

/-- ASCII decimal digit, as used by nom's `is_dec_digit`. -/
def isDigit (b : Nat) : Bool := 48 ≤ b && b ≤ 57

/-- Character class accepted by `digit1_or_negative` (bencode.rs line 63):
a decimal digit or the byte `'-'`. -/
def isIntChar (b : Nat) : Bool := isDigit b || b == 45

/-- The value of an ASCII digit string read most-significant-first, the
semantics of Rust's `str::parse` on a string of decimal digits. -/
def digitsToNat (l : List Nat) : Nat := l.foldl (fun a d => a * 10 + (d - 48)) 0

/-- The canonical ASCII decimal representation of `n` (used only by the
encoders that generate well-formed bencode inputs for the theorems). -/
def natDigits (n : Nat) : List Nat :=
  if n = 0 then [48] else ((Nat.digits 10 n).reverse).map (· + 48)

/-- `str::parse::<i64>` applied to the byte run captured by
`digit1_or_negative`: an optional leading `'-'` followed by one or more
digits, value within the `i64` range.  Any other shape (a bare `'-'`, a
`'-'` in the middle of the run, out-of-range values) is a parse error. -/
def parseI64 (l : List Nat) : Option Int :=
  match l with
  | 45 :: t =>
    if t.length ≠ 0 ∧ t.all isDigit ∧ digitsToNat t ≤ 2 ^ 63 then
      some (-(digitsToNat t : Int))
    else none
  | t =>
    if t.length ≠ 0 ∧ t.all isDigit ∧ digitsToNat t ≤ 2 ^ 63 - 1 then
      some ((digitsToNat t : Int))
    else none

/-- A bencode value (bencode.rs lines 15–21).  The Rust `Dictionary` holds a
`HashMap<Vec<u8>, BencodeValue>`; a `HashMap` is observed in this program only
through `get`, so it is modelled extensionally as an association list in which
the most recent insertion comes first (`hmInsert` prepends, `hmGet` takes the
first hit) — exactly the `get`-semantics of `HashMap` after the same sequence
of `insert`s, where a later `insert` of an existing key overwrites it. -/
inductive BencodeValue where
  | Bytes : List Nat → BencodeValue
  | Integer : Int → BencodeValue
  | List : List BencodeValue → BencodeValue
  | Dictionary : List (List Nat × BencodeValue) → BencodeValue

/-- `HashMap::insert`, extensionally: the new binding shadows any older one. -/
def hmInsert (m : List (List Nat × BencodeValue)) (k : List Nat) (v : BencodeValue) :
    List (List Nat × BencodeValue) := (k, v) :: m

/-- `iter().collect::<HashMap<_,_>>()` over a pair list: the pairs are
inserted left to right (bencode.rs lines 104–106). -/
def hmCollect (ps : List (List Nat × BencodeValue)) : List (List Nat × BencodeValue) :=
  ps.foldl (fun m p => hmInsert m p.1 p.2) []

/-- `HashMap::get`. -/
def hmGet (m : List (List Nat × BencodeValue)) (k : List Nat) : Option BencodeValue :=
  (m.find? (fun p => decide (p.1 = k))).map (fun p => p.2)

/-- Value attached to the last occurrence of key `k` in a pair list (later
pairs override earlier ones). -/
def lastValue (ps : List (List Nat × BencodeValue)) (k : List Nat) : Option BencodeValue :=
  ps.foldl (fun acc p => if p.1 = k then some p.2 else acc) none

/-- `parse_bytes` (bencode.rs lines 113–119): `digit1`, `str::parse::<u64>`
(which fails above `u64::MAX`), `char(':')`, `take(len)`.  Returns
`(remaining, bytes)`. -/
def parseBytesRaw (input : List Nat) : Option (List Nat × List Nat) :=
  let ds := input.takeWhile isDigit
  if ds.length = 0 then none
  else
    let len := digitsToNat ds
    if len < 2 ^ 64 then
      match input.drop ds.length with
      | 58 :: rest =>
        if len ≤ rest.length then some (rest.drop len, rest.take len) else none
      | _ => none
    else none

/-- `parse_integer` (bencode.rs lines 67–76): `char('i')`,
`digit1_or_negative` (a maximal nonempty run of digits and `'-'`),
`str::parse::<i64>`, `char('e')`. -/
def parse_integer (input : List Nat) : Option (List Nat × BencodeValue) :=
  match input with
  | c :: rest =>
    if c = 105 then
      let run := rest.takeWhile isIntChar
      if run.length = 0 then none
      else
        match parseI64 run with
        | none => none
        | some v =>
          match rest.drop run.length with
          | 101 :: rest2 => some (rest2, .Integer v)
          | _ => none
    else none
  | [] => none

mutual

/-- `parse_bencode` (bencode.rs lines 121–128), fuel-indexed to express the
recursion.  The `alt` combinator tries `parse_integer`, `parse_list`,
`parse_dictionary`, `parse_bytes` in order; their leading bytes
(`'i'`,`'l'`,`'d'`, digit) are pairwise disjoint, so `alt` is equivalent to
dispatching on the first byte, which is how it is written here. -/
def parseBF : Nat → List Nat → Option (List Nat × BencodeValue)
  | 0, _ => none
  | n + 1, input =>
    match input with
    | [] => none
    | c :: rest =>
      if c = 105 then parse_integer input
      else if c = 108 then
        match many0F n rest with
        | some (rest1, vs) =>
          match rest1 with
          | 101 :: rest2 => some (rest2, .List vs)
          | _ => none
        | none => none
      else if c = 100 then
        match many0PairsF n rest with
        | some (rest1, ps) =>
          match rest1 with
          | 101 :: rest2 => some (rest2, .Dictionary (hmCollect ps))
          | _ => none
        | none => none
      else (parseBytesRaw input).map (fun r => (r.1, .Bytes r.2))

/-- nom's `many0(parse_bencode)` (inside `parse_list`): iterate until the
inner parser fails; error out if an iteration consumes nothing. -/
def many0F : Nat → List Nat → Option (List Nat × List BencodeValue)
  | 0, _ => none
  | n + 1, input =>
    match parseBF n input with
    | none => some (input, [])
    | some (rest, v) =>
      if rest.length < input.length then
        match many0F n rest with
        | some (rest1, vs) => some (rest1, v :: vs)
        | none => none
      else none

/-- nom's `many0(parse_dictionary_pair)` (inside `parse_dictionary`,
bencode.rs lines 89–106): each pair is `parse_bytes` then `parse_bencode`;
iteration stops at the first pair that fails to parse. -/
def many0PairsF : Nat → List Nat → Option (List Nat × List (List Nat × BencodeValue))
  | 0, _ => none
  | n + 1, input =>
    match parseBytesRaw input with
    | none => some (input, [])
    | some (rest0, k) =>
      match parseBF n rest0 with
      | none => some (input, [])
      | some (rest, v) =>
        if rest.length < input.length then
          match many0PairsF n rest with
          | some (rest1, ps) => some (rest1, (k, v) :: ps)
          | none => none
        else none

end

/-- `parse_dictionary` (bencode.rs lines 96–111) as a standalone entry point:
`char('d')`, `many0(parse_dictionary_pair)`, `char('e')`, collect the pairs
into a `HashMap`. -/
def dictF (n : Nat) (input : List Nat) : Option (List Nat × BencodeValue) :=
  match input with
  | c :: rest =>
    if c = 100 then
      match many0PairsF n rest with
      | some (rest1, ps) =>
        match rest1 with
        | 101 :: rest2 => some (rest2, .Dictionary (hmCollect ps))
        | _ => none
      | none => none
    else none
  | [] => none

/-- Top-level `parse_bencode`.  The Rust recursion is bounded by the input
(each nesting level consumes at least one byte); `2·|input| + 2` units of fuel
dominate every chain of recursive calls the input can trigger. -/
def parse_bencode (input : List Nat) : Option (List Nat × BencodeValue) :=
  parseBF (2 * input.length + 2) input

/-- Top-level `parse_dictionary` with the same fuel bound. -/
def parse_dictionary (input : List Nat) : Option (List Nat × BencodeValue) :=
  dictF (2 * input.length + 2) input

/-- ASCII bytes of a string literal (all inputs used below are ASCII). -/
def sbytes (st : String) : List Nat := st.toList.map Char.toNat

/-- nom's `take_until(pat)`: find the first occurrence of `pat`, consume the
bytes before it, error if `pat` does not occur. -/
def takeUntilSub (pat input : List Nat) : Option (List Nat × List Nat) :=
  ((List.range (input.length + 1)).find? (fun i => pat.isPrefixOf (input.drop i))).map
    (fun i => (input.drop i, input.take i))

/-- `parse_info_dict_raw` (bencode.rs lines 135–143): scan for the literal
byte string `4:info` anywhere in the input, skip those 6 bytes, parse a
dictionary there, and return the byte span the dictionary parse consumed. -/
def parse_info_dict_raw (input : List Nat) : Option (List Nat × List Nat) :=
  match takeUntilSub (sbytes "4:info") input with
  | none => none
  | some (remaining, _) =>
    if 6 ≤ remaining.length then
      let remaining2 := remaining.drop 6
      match parse_dictionary remaining2 with
      | none => none
      | some (after, _) =>
        some (after, remaining2.take (remaining2.length - after.length))
    else none

/-- Encoder for a byte string (`<len>:<bytes>`), used to build the
well-formed inputs quantified over in the dictionary-leniency theorem. -/
def encodeStr (b : List Nat) : List Nat := natDigits b.length ++ 58 :: b

/-- Encoder for a sequence of key/value byte-string pairs. -/
def encodePairs : List (List Nat × List Nat) → List Nat
  | [] => []
  | p :: ps => encodeStr p.1 ++ (encodeStr p.2 ++ encodePairs ps)

/-- Encoder for a dictionary of byte-string values: `d <pairs> e`.  The key
list is arbitrary: nothing requires sortedness or distinctness. -/
def encodeStrDict (ps : List (List Nat × List Nat)) : List Nat :=
  100 :: (encodePairs ps ++ [101])

/-- The parsed form of the pairs of `encodeStrDict`. -/
def strDictPairs (ps : List (List Nat × List Nat)) : List (List Nat × BencodeValue) :=
  ps.map (fun p => (p.1, .Bytes p.2))

/-! ## The scheduler (downloader.rs) -/

/-- `BLOCK_LENGTH` (downloader.rs line 18). -/
def BLOCK_LENGTH : Nat := 16384

/-- The outcome of running a fragment of Rust code: a value, an
`Err(anyhow!(..))` return, or a panic (`todo!()`, index out of bounds, or a
debug-profile arithmetic-overflow check). -/
inductive Step (α : Type) where
  | ok : α → Step α
  | err : String → Step α
  | panicked : String → Step α

/-- `?`-propagation for `Step`. -/
def Step.bind {α β : Type} : Step α → (α → Step β) → Step β
  | .ok a, f => f a
  | .err e, _ => .err e
  | .panicked e, _ => .panicked e

/-- Whether a `Step` is an `Err` return. -/
def Step.isErr {α : Type} : Step α → Bool
  | .err _ => true
  | _ => false

/-- Debug-profile `usize` subtraction: underflow panics. -/
def checkedSub (a b : Nat) : Option Nat := if b ≤ a then some (a - b) else none

/-- The fields of `Metainfo` (metainfo.rs lines 34–41) that the scheduler
reads: the 20-byte piece hashes, `piece_length`, and `total_length`. `pieces`
entries are raw hash bytes; the scheduler of downloader.rs never reads them,
only `pieces.len()`.  `piece_length` is assumed nonzero (a zero value would
make the Rust `%` panic before any of the behaviour modelled here). -/
structure Metainfo where
  pieces : List (List Nat)
  piece_length : Nat
  total_length : Nat

/-- `PeerState` (downloader.rs lines 286–291) minus the outbox sender; the
bitfield is the underlying byte vector of the `BoolVec`. -/
structure PeerState where
  choking_us : Bool
  interested_in_us : Bool
  bitfield : List Nat

/-- `PieceState` (downloader.rs lines 293–299). -/
inductive PieceState where
  | Unstarted
  | Downloading (block_index : Nat)
  | Stalled (block_index : Nat)
  | Finished
deriving DecidableEq

/-- `FileSpan` (downloader.rs lines 383–388) minus the file handle. -/
structure FileSpan where
  start : Nat
  length : Nat

/-- The scheduler state mutated by the receive loop: the per-peer session
state and the shared `pieces_state` vector. -/
structure SchedState where
  peer : PeerState
  pieces_state : List PieceState

/-- A `PeerOutgoingMessage::RequestBlock` posted to the session outbox. -/
structure BlockRequest where
  index : Nat
  begin : Nat
  length : Nat

/-- A write performed through a `FileSpan`: (file index, seek offset, bytes). -/
def FileWrite : Type := Nat × Nat × List Nat

/-- The effects of handling one inbound packet: the new scheduler state, the
block requests sent, and the file writes performed. -/
structure StepEffects where
  state : SchedState
  requests : List BlockRequest
  writes : List FileWrite

/-- An inbound `Packet` (downloader.rs lines 88–100), after parsing. -/
inductive Packet where
  | KeepAlive
  | Choke
  | Unchoke
  | Interested
  | NotInterested
  | Have (index : Nat)
  | Bitfield (bytes : List Nat)
  | Request (index begin length : Nat)
  | Piece (index begin : Nat) (block : List Nat)
  | Cancel (index begin length : Nat)

/-- `BoolVec::get` over the underlying bytes (bit `i` is bit `i % 8` of byte
`i / 8`), returning `None` past the end of the byte vector. -/
def boolvecGet (bytes : List Nat) (i : Nat) : Option Bool :=
  (bytes.get? (i / 8)).map (fun b => b.testBit (i % 8))

/-- Whether a `PieceState` matches `Unstarted | Stalled { .. }`
(downloader.rs line 322). -/
def piecePickable : PieceState → Bool
  | .Unstarted => true
  | .Stalled _ => true
  | _ => false

/-- The resumed block index of a stalled piece, `0` otherwise
(downloader.rs line 324). -/
def stalledBlock : PieceState → Nat
  | .Stalled b => b
  | _ => 0

/-- `flag_next_piece` (downloader.rs lines 319–331): scan piece indices in
ascending order for the first one the peer has whose state is `Unstarted` or
`Stalled`, mark it `Downloading`, and return its index together with the
updated state vector. -/
def flag_next_piece (m : Metainfo) (peer : PeerState) (ps : List PieceState) :
    Option (Nat × List PieceState) :=
  match (List.range m.pieces.length).find?
      (fun i => ((boolvecGet peer.bitfield i).getD false) &&
        piecePickable (ps.getD i .Unstarted)) with
  | some i => some (i, ps.set i (.Downloading (stalledBlock (ps.getD i .Unstarted))))
  | none => none

/-- The effective length used for a piece in `request_next_block`
(downloader.rs lines 335–339) and in the piece-completion check
(downloader.rs lines 525–529): the last piece gets
`total_length % piece_length`, every other piece gets `piece_length`. -/
def last_piece_len (m : Metainfo) (piece_index : Nat) : Nat :=
  if piece_index = m.pieces.length - 1 then m.total_length % m.piece_length
  else m.piece_length

/-- `request_next_block` (downloader.rs lines 333–364): compute the block
count and the length of the block `block_index`, send a `RequestBlock`, and
advance the piece to `Downloading { block_index + 1 }`. -/
def request_next_block (piece_index : Nat) (m : Metainfo) (ps : List PieceState) :
    Step (BlockRequest × List PieceState) :=
  match ps.getD piece_index .Unstarted with
  | .Downloading block_index =>
    let piece_len := last_piece_len m piece_index
    match checkedSub piece_len 1 with
    | none => .panicked "attempt to subtract with overflow"
    | some t =>
      let num_blocks := t / BLOCK_LENGTH + 1
      let block_length :=
        if piece_len % BLOCK_LENGTH = 0 then BLOCK_LENGTH
        else if block_index + 1 = num_blocks then piece_len % BLOCK_LENGTH
        else BLOCK_LENGTH
      .ok ({ index := piece_index, begin := block_index * BLOCK_LENGTH,
             length := block_length },
           ps.set piece_index (.Downloading (block_index + 1)))
  | _ => .err "request_next_block called on piece with a PieceState other than Downloading"

/-- The `Packet::Piece` arm of the receive loop (downloader.rs lines
495–549): look up the piece's state (`Vec` indexing panics on an
out-of-range index), recover the block index just received, write the block
into the file span(s) covering its offset, and either request the next block
of the same piece or — when the piece's block count is reached — flag and
request the next piece.  If the piece is not `Downloading`, a warning is
logged and nothing changes. -/
def handle_piece_packet (m : Metainfo) (files : List FileSpan) (st : SchedState)
    (index : Nat) (block : List Nat) : Step StepEffects :=
  let piece_index := index
  if piece_index < st.pieces_state.length then
    match st.pieces_state.getD piece_index .Unstarted with
    | .Downloading block_index =>
      match checkedSub block_index 1 with
      | none => .panicked "attempt to subtract with overflow"
      | some bi =>
        let block_torrent_offset := piece_index * m.piece_length + bi * BLOCK_LENGTH
        match files.findIdx? (fun f => decide (f.start + f.length > block_torrent_offset)) with
        | none => .err "Piece index out of range for files provided (?)"
        | some file_index =>
          let f := files.getD file_index ⟨0, 0⟩
          let write_length := min (f.start + f.length - block_torrent_offset) block.length
          match checkedSub block_torrent_offset f.start with
          | none => .panicked "attempt to subtract with overflow"
          | some seek_pos =>
            let writes :=
              if write_length < block.length ∧ file_index + 1 < files.length then
                [(file_index, seek_pos, block.take write_length),
                 (file_index + 1, 0, block.drop write_length)]
              else [(file_index, seek_pos, block.take write_length)]
            let piece_len := last_piece_len m piece_index
            match checkedSub piece_len 1 with
            | none => .panicked "attempt to subtract with overflow"
            | some t =>
              let num_blocks := t / BLOCK_LENGTH + 1
              if bi + 1 ≥ num_blocks then
                match flag_next_piece m st.peer st.pieces_state with
                | some (next_piece_index, ps1) =>
                  match request_next_block next_piece_index m ps1 with
                  | .ok (req, ps2) =>
                    .ok { state := { peer := st.peer, pieces_state := ps2 },
                          requests := [req], writes := writes }
                  | .err e => .err e
                  | .panicked e => .panicked e
                | none => .err "No more pieces available to download from peer."
              else
                match request_next_block piece_index m st.pieces_state with
                | .ok (req, ps1) =>
                  .ok { state := { peer := st.peer, pieces_state := ps1 },
                        requests := [req], writes := writes }
                | .err e => .err e
                | .panicked e => .panicked e
    | _ => .ok { state := st, requests := [], writes := [] }
  else .panicked "index out of bounds"

/-- The packet `match` of the scheduler's receive loop (downloader.rs lines
470–551), one inbound packet at a time.  `todo!()` arms are panics. -/
def handle_packet (m : Metainfo) (files : List FileSpan) (st : SchedState) :
    Packet → Step StepEffects
  | .KeepAlive => .panicked "not yet implemented"
  | .Choke =>
    .ok { state := { st with peer := { st.peer with choking_us := true } },
          requests := [], writes := [] }
  | .Unchoke =>
    if st.peer.choking_us then
      let peer1 : PeerState := { st.peer with choking_us := false }
      match flag_next_piece m peer1 st.pieces_state with
      | some (piece_index, ps1) =>
        match request_next_block piece_index m ps1 with
        | .ok (req, ps2) =>
          .ok { state := { peer := peer1, pieces_state := ps2 },
                requests := [req], writes := [] }
        | .err e => .err e
        | .panicked e => .panicked e
      | none => .err "No pieces available to download from peer."
    else .ok { state := st, requests := [], writes := [] }
  | .Interested =>
    .ok { state := { st with peer := { st.peer with interested_in_us := true } },
          requests := [], writes := [] }
  | .NotInterested =>
    -- faithful to downloader.rs line 489: `peer_state.choking_us = false`
    .ok { state := { st with peer := { st.peer with choking_us := false } },
          requests := [], writes := [] }
  | .Have _ => .panicked "not yet implemented"
  | .Bitfield bytes =>
    .ok { state := { st with peer := { st.peer with bitfield := bytes } },
          requests := [], writes := [] }
  | .Request _ _ _ => .panicked "not yet implemented"
  | .Piece index _ block => handle_piece_packet m files st index block
  | .Cancel _ _ _ => .panicked "not yet implemented"

/-! ## Directory-torrent preallocation (downloader.rs lines 402–416) -/

/-- A `files` entry of a directory torrent (metainfo.rs lines 16–20). -/
structure DirectoryFileInfo where
  path : List String
  length : Nat

/-- `Info::Directory` (metainfo.rs lines 22–26). -/
structure DirectoryInfo where
  name : String
  files : List DirectoryFileInfo

/-- A file queued for preallocation: its target path (as the list of path
segments of `download_dir.join(&name).join(path.iter().collect())`; the
segments are concatenated verbatim, which is exact for relative segments)
together with its `FileSpan` offsets. -/
structure PlannedFile where
  path : List String
  start : Nat
  length : Nat

/-- The `for file in &files_info.files` loop of `Downloader::download`
(downloader.rs lines 405–415): preallocate each file at
`download_dir/name/<segments>` and record its span, accumulating `start`. -/
def preallocate_directory_loop (download_dir : List String) (name : String)
    (start : Nat) : List DirectoryFileInfo → List PlannedFile
  | [] => []
  | f :: fs =>
    { path := download_dir ++ [name] ++ f.path, start := start, length := f.length } ::
      preallocate_directory_loop download_dir name (start + f.length) fs

/-- The `Info::Directory` arm of the preallocation phase (downloader.rs lines
402–416): create the directory and preallocate every listed file.  The
control flow has no validation step, so the outcome is always `ok`. -/
def preallocate_directory (download_dir : List String) (di : DirectoryInfo) :
    Step (List PlannedFile) :=
  .ok (preallocate_directory_loop download_dir di.name 0 di.files)

/-! ## HTTP tracker response decoding (peer_list.rs lines 45–71) -/

/-- `BencodeValue::as_bytes` (bencode.rs lines 24–30). -/
def as_bytes : BencodeValue → Step (List Nat)
  | .Bytes b => .ok b
  | _ => .err "Expected byte string"

/-- `BencodeValue::as_integer` (bencode.rs lines 32–38). -/
def as_integer : BencodeValue → Step Int
  | .Integer i => .ok i
  | _ => .err "Expected integer"

/-- `BencodeValue::as_list` (bencode.rs lines 40–46). -/
def as_list : BencodeValue → Step (List BencodeValue)
  | .List l => .ok l
  | _ => .err "Expected list"

/-- `BencodeValue::as_dict` (bencode.rs lines 48–54). -/
def as_dict : BencodeValue → Step (List (List Nat × BencodeValue))
  | .Dictionary d => .ok d
  | _ => .err "Expected dictionary"

/-- `BencodeValue::as_str` (bencode.rs lines 56–59): `as_bytes` plus the
`from_utf8` check.  UTF-8 validity is modelled on the ASCII fragment (every
byte below 128 is valid UTF-8); all strings processed in the theorems below
are ASCII, and a byte string that is not a dotted-quad IPv4 address fails
the subsequent `ip.parse()` in both the source and the model. -/
def as_str (v : BencodeValue) : Step (List Nat) :=
  (as_bytes v).bind (fun b => if b.all (fun c => c < 128) then .ok b else .err "invalid utf-8")

/-- Split an ASCII byte string on `'.'`. -/
def splitDot : List Nat → List (List Nat)
  | [] => [[]]
  | c :: rest =>
    if c = 46 then [] :: splitDot rest
    else
      match splitDot rest with
      | g :: gs => (c :: g) :: gs
      | [] => [[c]]

/-- One octet of a textual IPv4 address as accepted by Rust's address
parser: one or more digits, no leading zero, value at most 255. -/
def octetOk (g : List Nat) : Bool :=
  g.length ≠ 0 && g.all isDigit && digitsToNat g ≤ 255 &&
    (g.length = 1 || g.headD 0 ≠ 48)

/-- `ip.parse::<IpAddr>()` restricted to the dotted-quad IPv4 grammar
(textual IPv6 addresses do not occur in the inputs considered here). -/
def ipv4Parse (b : List Nat) : Option (Nat × Nat × Nat × Nat) :=
  match splitDot b with
  | [a, b2, c, d] =>
    if octetOk a && octetOk b2 && octetOk c && octetOk d then
      some (digitsToNat a, digitsToNat b2, digitsToNat c, digitsToNat d)
    else none
  | _ => none

/-- A decoded peer socket address. -/
structure PeerEntry where
  ip : Nat × Nat × Nat × Nat
  port : Nat

/-- The per-peer closure of `fetch_peers_http` (peer_list.rs lines 57–70):
each list element must be a dictionary with a textual `ip` and an integer
`port` that fits in `u16`. -/
def parse_peer (v : BencodeValue) : Step PeerEntry :=
  (as_dict v).bind (fun p =>
    match hmGet p (sbytes "ip") with
    | none => .err "Peer has no IP field"
    | some ipv =>
      (as_str ipv).bind (fun ipb =>
        match ipv4Parse ipb with
        | none => .err "invalid IP address syntax"
        | some ip =>
          match hmGet p (sbytes "port") with
          | none => .err "Peer has no port field"
          | some pv =>
            (as_integer pv).bind (fun pi =>
              if 0 ≤ pi ∧ pi < 65536 then .ok { ip := ip, port := pi.toNat }
              else .err "out of range integral type conversion attempted")))

/-- `collect::<Result<_>>` over a list: the first error aborts. -/
def mapStep {α β : Type} (f : α → Step β) : List α → Step (List β)
  | [] => .ok []
  | x :: xs => (f x).bind (fun y => (mapStep f xs).bind (fun ys => .ok (y :: ys)))

/-- The response-decoding portion of `fetch_peers_http` (peer_list.rs lines
48–71): parse the bencoded body, require a dictionary with a `peers` key,
require that value to be a *list* (`as_list`), and decode each entry as an
`{ip, port}` dictionary.  (The surrounding function turns any error into an
empty peer set after logging.) -/
def fetch_peers_http_decode (res : List Nat) : Step (List PeerEntry) :=
  match parse_bencode res with
  | none => .err "Bencode parse error"
  | some (_, v) =>
    (as_dict v).bind (fun d =>
      match hmGet d (sbytes "peers") with
      | none => .err "Response contains no peers"
      | some pv => (as_list pv).bind (fun l => mapStep parse_peer l))

/-! ## Concrete scenarios used by the theorems -/

/-- A metainfo file whose root dictionary has a key `a` whose byte-string
value contains the bytes `4:info`, followed by the real `info` key whose
value is the dictionary `{b: 5}` with raw encoding `d1:bi5ee`. -/
def infoDecoyInput : List Nat := sbytes "d1:a8:4:infode4:infod1:bi5eee"

/-- Two-piece torrent: piece 0 has full length 16384, the last piece has
length `16389 % 16384 = 5`, so both pieces are single-block. -/
def twoPieceMeta (h0 h1 : List Nat) : Metainfo :=
  { pieces := [h0, h1], piece_length := 16384, total_length := 16389 }

/-- The single file span of `twoPieceMeta`. -/
def twoPieceFiles : List FileSpan := [{ start := 0, length := 16389 }]

/-- Session state in which piece 1 is being downloaded and its (single)
block has been requested, while the peer also holds piece 0. -/
def twoPieceSt : SchedState :=
  { peer := { choking_us := false, interested_in_us := false, bitfield := [255] },
    pieces_state := [.Unstarted, .Downloading 1] }

/-- A one-piece torrent used for the panic scenarios. -/
def onePieceMeta : Metainfo :=
  { pieces := [List.replicate 20 0], piece_length := 16384, total_length := 5 }

/-- File span of `onePieceMeta`. -/
def onePieceFiles : List FileSpan := [{ start := 0, length := 5 }]

/-- A fresh session for `onePieceMeta`. -/
def onePieceSt : SchedState :=
  { peer := { choking_us := true, interested_in_us := false, bitfield := [0] },
    pieces_state := [.Unstarted] }

/-- Two-piece torrent whose total length is an exact multiple of the piece
length (`32768 = 2 * 16384`). -/
def exactMultipleMeta : Metainfo :=
  { pieces := [List.replicate 20 0, List.replicate 20 1],
    piece_length := 16384, total_length := 32768 }

/-- Nine-piece torrent: a valid bitfield must be `ceil(9/8) = 2` bytes. -/
def ninePieceMeta : Metainfo :=
  { pieces := List.replicate 9 (List.replicate 20 0), piece_length := 16384,
    total_length := 147456 }

/-- A session for `ninePieceMeta` holding a correctly-sized all-zero
bitfield. -/
def ninePieceSt : SchedState :=
  { peer := { choking_us := true, interested_in_us := false, bitfield := [0, 0] },
    pieces_state := List.replicate 9 .Unstarted }

/-- Session state with both flags set, used to observe which flag
`NotInterested` changes. -/
def bothFlagsSt : SchedState :=
  { peer := { choking_us := true, interested_in_us := true, bitfield := [0] },
    pieces_state := [.Unstarted] }

/-- A directory torrent with a path-traversal `..` segment. -/
def traversalInfo : DirectoryInfo :=
  { name := "t", files := [{ path := ["..", "evil"], length := 3 }] }

/-- A dictionary-form tracker response advertising the peer 1.2.3.4:6881. -/
def dictFormResponse : List Nat := sbytes "d5:peersld2:ip7:1.2.3.44:porti6881eeee"

/-- A compact-form tracker response advertising the same peer 1.2.3.4:6881
(6-byte entry: 4-byte IPv4 then 2-byte big-endian port, 6881 = 26*256+225). -/
def compactFormResponse : List Nat := sbytes "d5:peers6:" ++ [1, 2, 3, 4, 26, 225] ++ sbytes "e"

/-- Key/value pairs with keys out of ascending order (`b` before `a`) and a
duplicate key (`b` twice): the bencoding of `{b: 1, a: 2, b: 3}`. -/
def unsortedDupPairs : List (List Nat × List Nat) :=
  [([98], [49]), ([97], [50]), ([98], [51])]

/-! ## Helper lemmas -/

theorem natDigits_ne_nil (n : Nat) : natDigits n ≠ [] := by
  unfold natDigits
  split
  · simp
  · next h =>
    have hd : Nat.digits 10 n ≠ [] := Nat.digits_ne_nil_iff_ne_zero.mpr h
    simp [hd]

theorem mem_natDigits_bounds {n d : Nat} (h : d ∈ natDigits n) : 48 ≤ d ∧ d ≤ 57 := by
  unfold natDigits at h
  split at h
  · simp at h
    omega
  · simp only [List.mem_map, List.mem_reverse] at h
    obtain ⟨x, hx, rfl⟩ := h
    have : x < 10 := Nat.digits_lt_base (by norm_num) hx
    omega

theorem isDigit_of_mem_natDigits {n d : Nat} (h : d ∈ natDigits n) : isDigit d = true := by
  have := mem_natDigits_bounds h
  simp only [isDigit, Bool.and_eq_true, decide_eq_true_eq]
  omega

theorem foldl_base10 (l : List Nat) (a : Nat) :
    l.reverse.foldl (fun acc d => acc * 10 + d) a = a * 10 ^ l.length + Nat.ofDigits 10 l := by
  induction l generalizing a with
  | nil => simp
  | cons d t ih =>
    simp only [List.reverse_cons, List.foldl_append, ih, List.foldl_cons, List.foldl_nil,
      List.length_cons, Nat.ofDigits_cons]
    ring

theorem digitsToNat_natDigits (n : Nat) : digitsToNat (natDigits n) = n := by
  unfold digitsToNat natDigits
  split
  · next h => simp [h]
  · rw [List.foldl_map]
    simp only [Nat.add_sub_cancel]
    rw [foldl_base10]
    simp [Nat.ofDigits_digits]

theorem takeWhile_append_stop (p : Nat → Bool) (l : List Nat) (y : Nat) (t : List Nat)
    (hall : ∀ x ∈ l, p x = true) (hy : p y = false) :
    (l ++ y :: t).takeWhile p = l := by
  induction l with
  | nil => simp [List.takeWhile_cons, hy]
  | cons x xs ih =>
    have hx : p x = true := hall x (by simp)
    simp only [List.cons_append, List.takeWhile_cons, hx, if_true]
    rw [ih (fun z hz => hall z (by simp [hz]))]

theorem parseBytesRaw_encode (b rest : List Nat) (hb : b.length < 2 ^ 64) :
    parseBytesRaw (encodeStr b ++ rest) = some (rest, b) := by
  have hall : ∀ x ∈ natDigits b.length, isDigit x = true :=
    fun x hx => isDigit_of_mem_natDigits hx
  have h58 : isDigit 58 = false := rfl
  have harr : encodeStr b ++ rest = natDigits b.length ++ 58 :: (b ++ rest) := by
    simp [encodeStr]
  have hne : (natDigits b.length).length ≠ 0 := by
    simpa [List.length_eq_zero] using natDigits_ne_nil b.length
  rw [harr]
  simp only [parseBytesRaw, takeWhile_append_stop isDigit _ _ _ hall h58,
    digitsToNat_natDigits, List.drop_left, if_neg hne, if_pos hb]
  have hle : b.length ≤ (b ++ rest).length := by simp
  simp only [if_pos hle, List.drop_left, List.take_left]

theorem parseBytesRaw_nondigit (c : Nat) (t : List Nat) (h : isDigit c = false) :
    parseBytesRaw (c :: t) = none := by
  simp [parseBytesRaw, List.takeWhile_cons, h]

theorem parseBF_encodeStr (n : Nat) (b rest : List Nat) (hn : 1 ≤ n)
    (hb : b.length < 2 ^ 64) :
    parseBF n (encodeStr b ++ rest) = some (rest, .Bytes b) := by
  obtain ⟨m, rfl⟩ : ∃ m, n = m + 1 := ⟨n - 1, by omega⟩
  cases hnd : natDigits b.length with
  | nil => exact absurd hnd (natDigits_ne_nil b.length)
  | cons c cs =>
    have hc : 48 ≤ c ∧ c ≤ 57 :=
      mem_natDigits_bounds (by rw [hnd]; exact List.mem_cons_self c cs)
    have hinput : encodeStr b ++ rest = c :: (cs ++ 58 :: (b ++ rest)) := by
      simp [encodeStr, hnd]
    rw [hinput]
    simp only [parseBF]
    rw [if_neg (by omega), if_neg (by omega), if_neg (by omega), ← hinput,
      parseBytesRaw_encode b rest hb]
    rfl

theorem encodeStr_length_pos (b : List Nat) : 0 < (encodeStr b).length := by
  simp [encodeStr]

theorem many0PairsF_encode (ps : List (List Nat × List Nat)) (n : Nat) (tail : List Nat)
    (hn : ps.length + 1 ≤ n)
    (hlen : ∀ p ∈ ps, p.1.length < 2 ^ 64 ∧ p.2.length < 2 ^ 64) :
    many0PairsF n (encodePairs ps ++ 101 :: tail) = some (101 :: tail, strDictPairs ps) := by
  induction ps generalizing n tail with
  | nil =>
    obtain ⟨m, rfl⟩ : ∃ m, n = m + 1 := ⟨n - 1, by omega⟩
    simp only [encodePairs, List.nil_append, many0PairsF,
      parseBytesRaw_nondigit 101 tail rfl]
    rfl
  | cons p ps ih =>
    obtain ⟨m, rfl⟩ : ∃ m, n = m + 1 := ⟨n - 1, by omega⟩
    have hm : ps.length + 1 ≤ m := by
      simp only [List.length_cons] at hn
      omega
    have hk : p.1.length < 2 ^ 64 := (hlen p (by simp)).1
    have hv : p.2.length < 2 ^ 64 := (hlen p (by simp)).2
    have harr : encodePairs (p :: ps) ++ 101 :: tail =
        encodeStr p.1 ++ (encodeStr p.2 ++ (encodePairs ps ++ 101 :: tail)) := by
      simp [encodePairs]
    have hlt : (encodePairs ps ++ 101 :: tail).length <
        (encodeStr p.1 ++ (encodeStr p.2 ++ (encodePairs ps ++ 101 :: tail))).length := by
      have h1 := encodeStr_length_pos p.1
      simp only [List.length_append]
      omega
    have h1 := parseBytesRaw_encode p.1 (encodeStr p.2 ++ (encodePairs ps ++ 101 :: tail)) hk
    have h2 := parseBF_encodeStr m p.2 (encodePairs ps ++ 101 :: tail) (by omega) hv
    have h3 := ih m tail hm (fun q hq => hlen q (by simp [hq]))
    rw [harr]
    simp only [many0PairsF, h1, h2, h3, if_pos hlt]
    simp [strDictPairs]

theorem encodePairs_length_ge (ps : List (List Nat × List Nat)) :
    ps.length ≤ (encodePairs ps).length := by
  induction ps with
  | nil => simp [encodePairs]
  | cons p ps ih =>
    have h1 := encodeStr_length_pos p.1
    simp only [encodePairs, List.length_append, List.length_cons]
    omega

theorem hmCollect_foldl (l : List (List Nat × BencodeValue))
    (acc : List (List Nat × BencodeValue)) :
    l.foldl (fun m p => hmInsert m p.1 p.2) acc = l.reverse ++ acc := by
  induction l generalizing acc with
  | nil => simp
  | cons p t ih => simp [hmInsert, ih]

theorem hmCollect_eq_reverse (l : List (List Nat × BencodeValue)) :
    hmCollect l = l.reverse := by
  simpa using hmCollect_foldl l []

theorem find?_append_pairs (q : List Nat × BencodeValue → Bool)
    (l₁ l₂ : List (List Nat × BencodeValue)) :
    (l₁ ++ l₂).find? q =
      match l₁.find? q with
      | some w => some w
      | none => l₂.find? q := by
  induction l₁ with
  | nil => simp
  | cons p t ih =>
    cases h : q p <;> simp [List.find?_cons, h, ih]

theorem lastValue_foldl (l : List (List Nat × BencodeValue)) (k : List Nat)
    (acc : Option BencodeValue) :
    l.foldl (fun a p => if p.1 = k then some p.2 else a) acc =
      match l.reverse.find? (fun p => decide (p.1 = k)) with
      | some w => some w.2
      | none => acc := by
  induction l generalizing acc with
  | nil => simp
  | cons p t ih =>
    simp only [List.foldl_cons, ih, List.reverse_cons,
      find?_append_pairs (fun p => decide (p.1 = k)) t.reverse [p]]
    cases hf : t.reverse.find? (fun p => decide (p.1 = k)) with
    | some w => rfl
    | none =>
      by_cases hq : p.1 = k <;> simp [List.find?_cons, hq]

theorem hmGet_hmCollect (l : List (List Nat × BencodeValue)) (k : List Nat) :
    hmGet (hmCollect l) k = lastValue l k := by
  rw [hmGet, hmCollect_eq_reverse, lastValue, lastValue_foldl]
  cases l.reverse.find? (fun p => decide (p.1 = k)) <;> rfl

theorem parseBF_dict (n : Nat) (ps : List (List Nat × List Nat)) (tail : List Nat)
    (hn : ps.length + 1 ≤ n)
    (hlen : ∀ p ∈ ps, p.1.length < 2 ^ 64 ∧ p.2.length < 2 ^ 64) :
    parseBF (n + 1) (100 :: (encodePairs ps ++ 101 :: tail)) =
      some (tail, .Dictionary (hmCollect (strDictPairs ps))) := by
  simp only [parseBF, if_true]
  rw [many0PairsF_encode ps n tail hn hlen]
  norm_num

theorem parse_bencode_strDict (ps : List (List Nat × List Nat))
    (hlen : ∀ p ∈ ps, p.1.length < 2 ^ 64 ∧ p.2.length < 2 ^ 64) :
    parse_bencode (encodeStrDict ps) =
      some ([], .Dictionary (hmCollect (strDictPairs ps))) := by
  have hfuel : ps.length + 1 ≤ 2 * (encodeStrDict ps).length + 1 := by
    have h1 := encodePairs_length_ge ps
    have h2 : (encodeStrDict ps).length = (encodePairs ps).length + 2 := by
      simp [encodeStrDict]
    omega
  show parseBF (2 * (encodeStrDict ps).length + 1 + 1) (100 :: (encodePairs ps ++ 101 :: [])) =
    some ([], .Dictionary (hmCollect (strDictPairs ps)))
  exact parseBF_dict (2 * (encodeStrDict ps).length + 1) ps [] hfuel hlen

/-- The scheduler's `Piece` handling depends on `metainfo.pieces` only
through `pieces.len()`: the hash values themselves are never read. -/
theorem handle_piece_irrel (ps ps' : List (List Nat)) (h : ps.length = ps'.length)
    (pl tl : Nat) (files : List FileSpan) (st : SchedState) (index : Nat)
    (block : List Nat) :
    handle_piece_packet ⟨ps, pl, tl⟩ files st index block =
      handle_piece_packet ⟨ps', pl, tl⟩ files st index block := by
  simp only [handle_piece_packet, flag_next_piece, last_piece_len, request_next_block, h]

theorem prealloc_loop_paths (fs : List DirectoryFileInfo) (dd : List String)
    (name : String) (start : Nat) :
    (preallocate_directory_loop dd name start fs).map (fun pf => pf.path) =
      fs.map (fun f => dd ++ [name] ++ f.path) := by
  induction fs generalizing start with
  | nil => rfl
  | cons f fs ih => simp [preallocate_directory_loop, ih]

/-! ## The claims -/

/-- Claim C1: the claim states that info-slice extraction always returns the
raw byte span of the root dictionary's `info` value, even when the byte
sequence `4:info` occurs earlier inside some byte string.  The code violates
this: on `infoDecoyInput` — a well-formed metainfo whose root dictionary maps
`a` to the byte string `4:infode` and `info` to the dictionary `{b: 5}` with
raw span `d1:bi5ee` — `parse_info_dict_raw` locks onto the first occurrence
of `4:info` (inside the value of `a`) and returns the 2-byte span `de`
instead of `d1:bi5ee`.  This is the defect the source's own TODO comment
(bencode.rs line 134) acknowledges. -/
theorem c1_info_slice_byte_search_bug :
    parse_bencode infoDecoyInput =
      some ([], .Dictionary [(sbytes "info", .Dictionary [(sbytes "b", .Integer 5)]),
                             (sbytes "a", .Bytes (sbytes "4:infode"))]) ∧
    hmGet [(sbytes "info", BencodeValue.Dictionary [(sbytes "b", .Integer 5)]),
           (sbytes "a", BencodeValue.Bytes (sbytes "4:infode"))] (sbytes "info") =
      some (.Dictionary [(sbytes "b", .Integer 5)]) ∧
    infoDecoyInput = sbytes "d1:a8:4:infode4:info" ++ sbytes "d1:bi5ee" ++ sbytes "e" ∧
    parse_bencode (sbytes "d1:bi5ee") = some ([], .Dictionary [(sbytes "b", .Integer 5)]) ∧
    parse_info_dict_raw infoDecoyInput = some (sbytes "4:infod1:bi5eee", sbytes "de") ∧
    sbytes "de" ≠ sbytes "d1:bi5ee" :=
  ⟨rfl, rfl, rfl, rfl, rfl, by decide⟩

/-- Claim C2: the claim states that a piece reaching its final block is
SHA-1-checked against `pieces[index]` and reverted to `Unstarted` on
mismatch.  The code performs no hash computation at all: delivering the
final block of piece 1 produces a result that is the same for every choice
of the expected hashes `h0, h1` (so no comparison against `pieces[1]` can be
happening), and leaves piece 1 in `Downloading`, never `Unstarted` and never
`Finished`. -/
theorem c2_no_hash_verification (h0 h1 : List Nat) :
    handle_packet (twoPieceMeta h0 h1) twoPieceFiles twoPieceSt (.Piece 1 0 [9, 9, 9, 9, 9]) =
      .ok { state := { peer := twoPieceSt.peer,
                       pieces_state := [.Downloading 1, .Downloading 1] },
            requests := [{ index := 0, begin := 0, length := 16384 }],
            writes := [(0, 16384, [9, 9, 9, 9, 9])] } ∧
    (PieceState.Downloading 1 ≠ PieceState.Unstarted ∧
      PieceState.Downloading 1 ≠ PieceState.Finished) := by
  refine ⟨?_, by decide⟩
  have hirr := handle_piece_irrel [h0, h1] [[], []] rfl 16384 16389 twoPieceFiles
    twoPieceSt 1 [9, 9, 9, 9, 9]
  show handle_piece_packet ⟨[h0, h1], 16384, 16389⟩ twoPieceFiles twoPieceSt 1 [9, 9, 9, 9, 9] = _
  rw [hirr]
  rfl

/-- Claim C3: the claim states that handling any single inbound packet never
panics.  The code panics on KeepAlive, Have, Request and Cancel (all four
are `todo!()` arms) and on a Piece packet whose index is not a valid piece
index (`pieces_state[piece_index]` indexes out of bounds). -/
theorem c3_receive_loop_panics :
    handle_packet onePieceMeta onePieceFiles onePieceSt .KeepAlive =
      .panicked "not yet implemented" ∧
    handle_packet onePieceMeta onePieceFiles onePieceSt (.Have 0) =
      .panicked "not yet implemented" ∧
    handle_packet onePieceMeta onePieceFiles onePieceSt (.Request 0 0 16384) =
      .panicked "not yet implemented" ∧
    handle_packet onePieceMeta onePieceFiles onePieceSt (.Cancel 0 0 16384) =
      .panicked "not yet implemented" ∧
    handle_packet onePieceMeta onePieceFiles onePieceSt (.Piece 5 0 [1]) =
      .panicked "index out of bounds" :=
  ⟨rfl, rfl, rfl, rfl, rfl⟩

/-- Claim C4: the claim states that when `total_length` is an exact multiple
of `piece_length`, the effective last-piece length used by the block
computations equals `piece_length`.  The code computes
`total_length % piece_length`, which is `0` in that case, and the subsequent
`(piece_len - 1)` underflows, so delivering a block of the last piece
panics. -/
theorem c4_last_piece_len_zero :
    last_piece_len exactMultipleMeta 1 = 0 ∧
    exactMultipleMeta.piece_length = 16384 ∧
    last_piece_len exactMultipleMeta 1 ≠ exactMultipleMeta.piece_length ∧
    handle_packet exactMultipleMeta [{ start := 0, length := 32768 }]
      { peer := { choking_us := false, interested_in_us := false, bitfield := [255] },
        pieces_state := [.Unstarted, .Downloading 1] } (.Piece 1 0 [7]) =
      .panicked "attempt to subtract with overflow" :=
  ⟨rfl, rfl, by decide, rfl⟩

/-- Claim C5: the claim states that after the last block of a piece is
received the scheduler sets `PieceState[index] = Finished` and then runs
pick-and-request.  The code does run pick-and-request (the next piece is
flagged and its first block requested), but it never assigns `Finished`: the
completed piece 1 is left as `Downloading 1`. -/
theorem c5_finished_never_assigned :
    handle_packet (twoPieceMeta (List.replicate 20 0) (List.replicate 20 1)) twoPieceFiles
      twoPieceSt (.Piece 1 0 [1, 2, 3, 4, 5]) =
      .ok { state := { peer := twoPieceSt.peer,
                       pieces_state := [.Downloading 1, .Downloading 1] },
            requests := [{ index := 0, begin := 0, length := 16384 }],
            writes := [(0, 16384, [1, 2, 3, 4, 5])] } ∧
    ([PieceState.Downloading 1, PieceState.Downloading 1].getD 1 .Unstarted ≠
      PieceState.Finished) :=
  ⟨rfl, by decide⟩

/-- Claim C6, counterexample: the claim states that a Bitfield whose payload
length differs from `ceil(pieces.len()/8)` is a fatal ProtocolError and
leaves the session bitfield unchanged.  On a 9-piece torrent (expected
bitfield length 2) the code accepts a 1-byte Bitfield, replaces the session
bitfield with it, and reports no error. -/
theorem c6_counterexample :
    handle_packet ninePieceMeta [{ start := 0, length := 147456 }] ninePieceSt
      (.Bitfield [255]) =
      .ok { state := { peer := { choking_us := true, interested_in_us := false,
                                 bitfield := [255] },
                       pieces_state := List.replicate 9 .Unstarted },
            requests := [], writes := [] } ∧
    ([255] : List Nat).length ≠ (ninePieceMeta.pieces.length + 7) / 8 :=
  ⟨rfl, by decide⟩

/-- Claim C6, amended: on receiving a Bitfield the scheduler unconditionally
replaces the session bitfield with the payload bytes — no length check, no
trailing-bit check, no error, and no other state change. -/
theorem c6_bitfield_replaced_unconditionally (m : Metainfo) (files : List FileSpan)
    (st : SchedState) (bytes : List Nat) :
    handle_packet m files st (.Bitfield bytes) =
      .ok { state := { peer := { choking_us := st.peer.choking_us,
                                 interested_in_us := st.peer.interested_in_us,
                                 bitfield := bytes },
                       pieces_state := st.pieces_state },
            requests := [], writes := [] } := rfl

/-- Claim C7, counterexample: the claim states that a directory torrent with
a `..` path segment aborts with an error before any file is preallocated.
The code performs no check: the file is planned for preallocation at the
traversal path `dl/t/../evil`. -/
theorem c7_counterexample :
    preallocate_directory ["dl"] traversalInfo =
      .ok [{ path := ["dl", "t", "..", "evil"], start := 0, length := 3 }] ∧
    ".." ∈ ["dl", "t", "..", "evil"] :=
  ⟨rfl, by decide⟩

/-- Claim C7, amended: directory-torrent path segments are used without any
validation — preallocation never fails, and every listed file (including
those whose path contains `..` or absolute segments) is planned at
`download_dir/name/<segments>` verbatim. -/
theorem c7_no_path_validation (download_dir : List String) (di : DirectoryInfo) :
    preallocate_directory download_dir di =
      .ok (preallocate_directory_loop download_dir di.name 0 di.files) ∧
    (preallocate_directory_loop download_dir di.name 0 di.files).map (fun pf => pf.path) =
      di.files.map (fun f => download_dir ++ [di.name] ++ f.path) ∧
    (preallocate_directory_loop download_dir di.name 0 di.files).length =
      di.files.length := by
  have h := prealloc_loop_paths di.files download_dir di.name 0
  refine ⟨rfl, h, ?_⟩
  have h2 := congrArg List.length h
  simpa using h2

/-- Claim C8: the claim states that both peer-list encodings are accepted.
The code accepts the dictionary form but rejects the compact form: on a
response whose `peers` value is the 6-byte string 1.2.3.4:6881 it calls
`as_list` on a byte string, which is an error (the tracker is then skipped),
while the equivalent dictionary-form response decodes to that address. -/
theorem c8_compact_form_rejected :
    fetch_peers_http_decode dictFormResponse = .ok [{ ip := (1, 2, 3, 4), port := 6881 }] ∧
    (fetch_peers_http_decode compactFormResponse).isErr = true :=
  ⟨rfl, rfl⟩

/-- Claim C9: the claim states that NotInterested sets `interested_in_us` to
false and leaves `choking_us` unchanged.  The code instead sets
`choking_us = false`: starting from a session with both flags true,
NotInterested yields `choking_us = false` (changed) and
`interested_in_us = true` (unchanged).  Interested does set
`interested_in_us` to true, and neither message sends anything. -/
theorem c9_notinterested_wrong_flag :
    handle_packet onePieceMeta onePieceFiles bothFlagsSt .NotInterested =
      .ok { state := { peer := { choking_us := false, interested_in_us := true,
                                 bitfield := [0] },
                       pieces_state := [.Unstarted] },
            requests := [], writes := [] } ∧
    handle_packet onePieceMeta onePieceFiles bothFlagsSt .Interested =
      .ok { state := { peer := { choking_us := true, interested_in_us := true,
                                 bitfield := [0] },
                       pieces_state := [.Unstarted] },
            requests := [], writes := [] } :=
  ⟨rfl, rfl⟩

/-- Claim C10: the bencode parser accepts dictionaries whose keys are out of
ascending lexicographic order and dictionaries with duplicate keys: for
every sequence of key/value pairs (keys in any order, repetitions allowed),
parsing the encoded dictionary succeeds, and the resulting `Dictionary` maps
each key to the value of its last occurrence, earlier occurrences being
discarded. -/
theorem c10_unsorted_duplicate_keys_accepted (ps : List (List Nat × List Nat))
    (hlen : ∀ p ∈ ps, p.1.length < 2 ^ 64 ∧ p.2.length < 2 ^ 64) :
    parse_bencode (encodeStrDict ps) =
      some ([], .Dictionary (hmCollect (strDictPairs ps))) ∧
    ∀ k, hmGet (hmCollect (strDictPairs ps)) k = lastValue (strDictPairs ps) k :=
  ⟨parse_bencode_strDict ps hlen, fun k => hmGet_hmCollect (strDictPairs ps) k⟩

/-- Witness for C10 at `unsortedDupPairs`, the encoding of
`{b: 1, a: 2, b: 3}` (keys out of order, `b` duplicated). -/
theorem c10_witness :
    (∀ p ∈ unsortedDupPairs, p.1.length < 2 ^ 64 ∧ p.2.length < 2 ^ 64) ∧
    (parse_bencode (encodeStrDict unsortedDupPairs) =
        some ([], .Dictionary (hmCollect (strDictPairs unsortedDupPairs))) ∧
      ∀ k, hmGet (hmCollect (strDictPairs unsortedDupPairs)) k =
        lastValue (strDictPairs unsortedDupPairs) k) :=
  ⟨by decide, c10_unsorted_duplicate_keys_accepted unsortedDupPairs (by decide)⟩

end Downpour
